import Mathlib

/-!
Verification of the feishu_mail mailbox-access script against its
natural-language specification.  The script's data model and operations are
shallowly embedded: the IMAP server side is a `Server` record of response
functions, a raw message is a `RawMessage` (header values modelled as
already MIME-decoded text, the body as a tree of MIME parts), and each
top-level function of the script becomes a Lean function over that model.
-/

set_option maxHeartbeats 1000000
set_option maxRecDepth 4000

/-- The double-quote character, written via its code point so that character
literals in this file stay unambiguous. -/
def dq : Char := Char.ofNat 34

/-- One-character string holding the double-quote character. -/
def dqS : String := String.mk [dq]

/-- MIME part tree of a message body: a leaf carries its content type and
its decoded payload, where `none` models `get_payload(decode=True)`
returning `None` or the decode raising; a `multi` node carries its content
type and its sub-parts. -/
inductive MailPart where
  | leaf : String → Option String → MailPart
  | multi : String → List MailPart → MailPart

/-- Content type of a part, as `part.get_content_type()` reports it. -/
def MailPart.contentType : MailPart → String
  | .leaf ct _ => ct
  | .multi ct _ => ct

mutual
/-- Depth-first traversal of a part tree, each node before its children,
modelling `msg.walk()`. -/
def MailPart.walk : MailPart → List MailPart
  | .leaf ct p => [MailPart.leaf ct p]
  | .multi ct cs => MailPart.multi ct cs :: walkChildren cs

/-- Concatenated walks of a list of sibling parts. -/
def walkChildren : List MailPart → List MailPart
  | [] => []
  | p :: ps => MailPart.walk p ++ walkChildren ps
end

/-- Raw message as produced by `email.message_from_bytes`: header values are
modelled as already MIME-decoded text, `none` modelling an absent header,
and the body as a part tree. -/
structure RawMessage where
  fromHeader : Option String
  subjectHeader : Option String
  dateHeader : Option String
  content : MailPart

/-- Result of one `mail.fetch` call: the call may raise (`exn`), return a
non-OK status or empty data (`bad`), or deliver a message. -/
inductive FetchRes where
  | exn : FetchRes
  | bad : FetchRes
  | ok : RawMessage → FetchRes

/-- Whether a fetch delivered a message. -/
def FetchRes.isOk : FetchRes → Bool
  | .ok _ => true
  | _ => false

/-- Result of `mail.list()`: the call may raise (`exn`, a total failure) or
return a sequence of lines, where a `none` entry models a line whose
`decode()` raises mid-iteration (a partial failure). -/
inductive ListRes where
  | exn : ListRes
  | ok : List (Option String) → ListRes

/-- The IMAP server as the script observes it: `select` returns the message
count of a folder when the status is OK, `fetch` answers per folder and
identifier string, `searchResp` answers per folder and criterion string
(`none` models a non-OK status or a raised exception, both of which make
the operation return an empty list), `listResp` answers `mail.list()`. -/
structure Server where
  connectOk : Bool
  select : String → Option Nat
  fetch : String → String → FetchRes
  searchResp : String → String → Option (List String)
  listResp : ListRes

/-- Model of `decode_subject`: header values are modelled post MIME
decoding, so `decode_header` acts as the identity here; the truthiness test
`if not subject` makes both an absent and an empty subject yield the fixed
placeholder. -/
def decode_subject : Option String → String
  | none => "(无主题)"
  | some s => if s = "" then "(无主题)" else s

/-- Model of `email.utils.parseaddr` on the header shapes this script
meets: an absent or empty header yields `("", "")` (Python builds an empty
address list and returns the empty pair rather than failing); a header with
an angle-bracket pair is split into display name and address; otherwise the
whole trimmed header is taken as the address. -/
def parseaddr : Option String → String × String
  | none => ("", "")
  | some s =>
    if s = "" then ("", "")
    else if '<' ∈ s.data then
      ((String.mk (s.data.takeWhile (fun c => c ≠ '<'))).trim,
       String.mk (((s.data.dropWhile (fun c => c ≠ '<')).drop 1).takeWhile (fun c => c ≠ '>')))
    else ("", s.trim)

/-- Record built for each message by the batch (listing/search) loops. -/
structure EmailSummary where
  id : String
  from_name : String
  from_addr : String
  subject : String
  date : Option String
deriving DecidableEq

/-- Record built by `read_email`; the script's detail dict carries no id. -/
structure EmailDetail where
  from_name : String
  from_addr : String
  subject : String
  date : Option String
  body : String
deriving DecidableEq

/-- Envelope parsing repeated verbatim inside the three batch loops: the
sender is split by `parseaddr` under the `if from_header:` truthiness
guard, the subject decoded, the raw date string kept as is. -/
def summarize (idStr : String) (m : RawMessage) : EmailSummary :=
  let fa :=
    match m.fromHeader with
    | some h => if h = "" then ("", "") else parseaddr (some h)
    | none => ("", "")
  ⟨idStr, fa.1, fa.2, decode_subject m.subjectHeader, m.dateHeader⟩

/-- Loop body shared verbatim by the three batch operations: fetch one
identifier, keep the parsed summary when the fetch delivers a message, and
skip the identifier on any failure (the `continue` under the per-message
`try`, and the status/data guard). -/
def okSummary (srv : Server) (folder : String) (i : String) : Option EmailSummary :=
  match srv.fetch folder i with
  | FetchRes.ok m => some (summarize i m)
  | FetchRes.bad => none
  | FetchRes.exn => none

/-- Payload the multipart loop extracts from one walked part: a
`text/plain` leaf yields its decoded payload; a `text/plain` label on a
container yields nothing (`get_payload(decode=True)` is `None` there, the
decode raises, and `except: pass` moves on), as does any other content
type. -/
def plainPayload : MailPart → Option String
  | .leaf ct p => if ct = "text/plain" then p else none
  | .multi _ _ => none

/-- Body extraction of `read_email`: a multipart message takes the first
successfully decoded `text/plain` payload along the depth-first walk,
falling back to the initial empty string; a non-multipart message decodes
its single payload, yielding the fixed placeholder when that raises. -/
def parseBody : MailPart → String
  | .multi ct cs => (((MailPart.multi ct cs).walk).findSome? plainPayload).getD ""
  | .leaf _ p =>
    match p with
    | some s => s
    | none => "(无法解析内容)"

/-- Python character slicing `s[:n]`. -/
def strTake (s : String) (n : Nat) : String := String.mk (s.data.take n)

/-- Detail record built by `read_email`, body truncated to 2000 characters
(`body[:2000]`); unlike the batch loops, `parseaddr` is applied to the raw
`From` header with no truthiness guard. -/
def parseDetail (m : RawMessage) : EmailDetail :=
  let fa := parseaddr m.fromHeader
  ⟨fa.1, fa.2, decode_subject m.subjectHeader, m.dateHeader,
   strTake (parseBody m.content) 2000⟩

/-- Python `str.split` with a one-character separator. -/
def splitChar (sep : Char) : List Char → List (List Char)
  | [] => [[]]
  | c :: cs =>
    if c = sep then [] :: splitChar sep cs
    else
      match splitChar sep cs with
      | [] => [[c]]
      | h :: t => (c :: h) :: t

/-- Python `s.strip(quote)`: all leading and trailing double quotes
removed. -/
def stripQuotes (s : String) : String :=
  String.mk (((s.data.dropWhile (fun c => c = dq)).reverse.dropWhile (fun c => c = dq)).reverse)

/-- Static mapping from encoded folder tokens to display names. -/
def folder_map : List (String × String) :=
  [("&XfJfUmhj-", "Archive"),
   ("&V4NXPpCuTvY-", "Junk"),
   ("&XfJSIJZk-", "Trash"),
   ("&XfJT0ZAB-", "Sent"),
   ("&g0l6P3ux-", "Drafts")]

/-- Python `folder_map.get(key)`. -/
def folderMapGet (k : String) : Option String :=
  (folder_map.find? (fun p => p.1 == k)).map (fun p => p.2)

/-- Name resolution for one decoded listing line: split on double quotes; a
line with at least three pieces takes the piece between the final pair of
quotes through the mapping, falling back to that piece itself; otherwise
the line's final slash-separated segment, whitespace-trimmed and
quote-stripped. -/
def parseFolderLine (line : String) : String :=
  let parts := splitChar dq line.data
  if 3 ≤ parts.length then
    let folder_path := String.mk (parts.getD (parts.length - 2) [])
    (folderMapGet folder_path).getD folder_path
  else
    stripQuotes ((String.mk ((splitChar '/' line.data).getLastD [])).trim)

/-- Model of `get_folder_list`: a raising `mail.list()` is caught by the
surrounding `except` and yields `[]`; a line failing to decode raises
mid-loop, the `except` discards the partial accumulation and again yields
`[]`; otherwise each decoded line is resolved to a display name. -/
def get_folder_list (srv : Server) : List String :=
  match srv.listResp with
  | ListRes.exn => []
  | ListRes.ok lines =>
    if lines.all (fun o => o.isSome) then
      (lines.filterMap (fun o => o)).map parseFolderLine
    else []

/-- Identifiers visited by `get_recent_emails`:
`range(num_messages, num_messages - count, -1)`. -/
def recentIdx (n count : Nat) : List Int :=
  (List.range count).map (fun k : Nat => (n : Int) - (k : Int))

/-- Model of `get_recent_emails`: select the folder (a non-OK select prints
a diagnostic and returns `[]`), then walk `count` identifiers downward from
the reported message total, skipping every identifier whose fetch fails. -/
def get_recent_emails (srv : Server) (count : Nat) (folder : String) : List EmailSummary :=
  match srv.select folder with
  | none => []
  | some n => (recentIdx n count).filterMap (fun i => okSummary srv folder (toString i))

/-- Python slicing `ids[-10:]`. -/
def lastTen (l : List String) : List String := l.drop (l.length - 10)

/-- Search criterion built by literal interpolation of the keyword, the
f-string `(SUBJECT "{keyword}")` with no escaping. -/
def searchCriterion (keyword : String) : String :=
  "(SUBJECT " ++ dqS ++ keyword ++ dqS ++ ")"

/-- Model of `search_emails`: select, issue the subject search, keep at
most the last ten matching identifiers, skipping every identifier whose
fetch fails. -/
def search_emails (srv : Server) (keyword folder : String) : List EmailSummary :=
  match srv.select folder with
  | none => []
  | some _ =>
    match srv.searchResp folder (searchCriterion keyword) with
    | none => []
    | some ids => (lastTen ids).filterMap (fun i => okSummary srv folder i)

/-- Model of `get_unread_emails`: select, issue the `(UNSEEN)` search,
return immediately when nothing matches, otherwise process the last ten
matches exactly as `search_emails` does. -/
def get_unread_emails (srv : Server) (folder : String) : List EmailSummary :=
  match srv.select folder with
  | none => []
  | some _ =>
    match srv.searchResp folder "(UNSEEN)" with
    | none => []
    | some ids =>
      if ids.isEmpty then []
      else (lastTen ids).filterMap (fun i => okSummary srv folder i)

/-- Model of `read_email`: select, fetch the single identifier; a non-OK
select yields `None`, and a failing or empty fetch (including a
non-existent identifier) yields `None`; otherwise the parsed detail. -/
def read_email (srv : Server) (email_id folder : String) : Option EmailDetail :=
  match srv.select folder with
  | none => none
  | some _ =>
    match srv.fetch folder email_id with
    | FetchRes.ok m => some (parseDetail m)
    | FetchRes.bad => none
    | FetchRes.exn => none

/-- Observable session lifecycle of one `main` invocation. -/
structure MainTrace where
  sessionOpened : Bool
  logoutCount : Nat
deriving DecidableEq

/-- Whether a digit block is a valid Python integer literal body: decimal
digits with single underscores allowed only between digits. -/
def pyDigitsOk (l : List Char) : Bool :=
  !l.isEmpty
  && l.all (fun c => c.isDigit || c = '_')
  && (l.headD '_') != '_'
  && (l.getLastD '_') != '_'
  && (l.zip l.tail).all (fun p => !(p.1 == '_' && p.2 == '_'))

/-- Decimal value of a digit sequence. -/
def digitsToNat (l : List Char) : Nat :=
  l.foldl (fun acc c => 10 * acc + (c.toNat - 48)) 0

/-- Model of Python `int()` on an ASCII string literal: surrounding
whitespace is stripped, an optional single sign is accepted, and the rest
must be decimal digits with single underscores between digits, so
`+5`, ` 5 ` and `1_0` parse while `+ 5`, `_5`, `5_` and `1__0` raise
`ValueError` (`none` here).  Non-ASCII digit forms are outside the model. -/
def pyInt? (s : String) : Option Int :=
  let t := ((s.data.dropWhile Char.isWhitespace).reverse.dropWhile Char.isWhitespace).reverse
  match t with
  | [] => none
  | c :: rest =>
    let signed : Bool × List Char :=
      if c = '-' then (true, rest)
      else if c = '+' then (false, rest)
      else (false, c :: rest)
    if pyDigitsOk signed.2 then
      let v : Int := Int.ofNat (digitsToNat (signed.2.filter (fun ch => ch.isDigit)))
      some (if signed.1 then -v else v)
    else none

/-- Count used by the `recent` command:
`int(sys.argv[2]) if len(sys.argv) > 2 else 5`; `none` models the uncaught
`ValueError` of a failed parse. -/
def recentCount? (argv : List String) : Option Int :=
  if 2 < argv.length then pyInt? (argv.getD 2 "") else some (5 : Int)

/-- Whether `print_emails_table` raises on a summary list: for each listed
message it evaluates the membership test of a comma in the raw date value,
which is an uncaught `TypeError` when the Date header is absent (`None`);
an empty list only prints a notice and returns. -/
def dateCrash (emails : List EmailSummary) : Bool :=
  emails.any (fun e => e.date.isNone)

/-- Conditions under which `main` terminates after opening the session but
before reaching `mail.logout()`: `search` or `read` invoked with the
argument missing (`sys.exit(1)`); `recent` with a count argument that
`int()` cannot parse (an uncaught `ValueError`); and a `recent`, `search`
or `unread` invocation whose printed summary list contains a message with
an absent Date header (`print_emails_table` raises an uncaught
`TypeError`). -/
def skipsLogout (srv : Server) (argv : List String) : Prop :=
  (argv.getD 1 "" = "search" ∧ argv.length < 3)
  ∨ (argv.getD 1 "" = "read" ∧ argv.length < 3)
  ∨ (argv.getD 1 "" = "recent" ∧ recentCount? argv = none)
  ∨ (argv.getD 1 "" = "recent" ∧ ∃ c, recentCount? argv = some c ∧
       dateCrash (get_recent_emails srv c.toNat "INBOX") = true)
  ∨ (argv.getD 1 "" = "search" ∧ ¬ argv.length < 3 ∧
       dateCrash (search_emails srv (argv.getD 2 "") "INBOX") = true)
  ∨ (argv.getD 1 "" = "unread" ∧ dateCrash (get_unread_emails srv "INBOX") = true)

/-- Session lifecycle of `main` on a given argument vector.
`connect_mailbox` terminates the process on failure before a session
exists.  The batch commands run their query and then print the table,
which dies before the logout when a listed message has no Date header
(`dateCrash`); a negative parsed count makes the range empty exactly as in
Python, hence `Int.toNat`.  The `folders` output is plain strings and the
`read` detail is printed through f-strings, which stringify an absent
value, so neither can fail between the query and `mail.logout()`. -/
def mainRun (srv : Server) (argv : List String) : MainTrace :=
  if argv.length < 2 then ⟨false, 0⟩
  else if srv.connectOk = false then ⟨false, 0⟩
  else if argv.getD 1 "" = "recent" then
    match recentCount? argv with
    | none => ⟨true, 0⟩
    | some c =>
      if dateCrash (get_recent_emails srv c.toNat "INBOX") = true then ⟨true, 0⟩
      else ⟨true, 1⟩
  else if argv.getD 1 "" = "search" then
    if argv.length < 3 then ⟨true, 0⟩
    else if dateCrash (search_emails srv (argv.getD 2 "") "INBOX") = true then ⟨true, 0⟩
    else ⟨true, 1⟩
  else if argv.getD 1 "" = "unread" then
    if dateCrash (get_unread_emails srv "INBOX") = true then ⟨true, 0⟩ else ⟨true, 1⟩
  else if argv.getD 1 "" = "folders" then ⟨true, 1⟩
  else if argv.getD 1 "" = "read" then
    if argv.length < 3 then ⟨true, 0⟩ else ⟨true, 1⟩
  else ⟨true, 1⟩

/-- Reading a criterion the way the wire protocol delimits it: characters
up to the first unescaped double quote form the quoted term. -/
def quotedTerm : List Char → Option (List Char × List Char)
  | [] => none
  | c :: cs =>
    if c = dq then some ([], cs)
    else (quotedTerm cs).map (fun r => (c :: r.1, r.2))

/-- Drop an expected leading character sequence, or fail. -/
def chopLead : List Char → List Char → Option (List Char)
  | [], cs => some cs
  | _ :: _, [] => none
  | p :: ps, c :: cs => if c = p then chopLead ps cs else none

/-- The subject keyword a protocol reader recovers from a criterion of the
shape the script emits: the quoted term after `(SUBJECT "`, provided the
criterion ends right after its closing quote. -/
def criterionSubject (s : String) : Option String :=
  match chopLead ("(SUBJECT ".data ++ [dq]) s.data with
  | none => none
  | some rest =>
    match quotedTerm rest with
    | none => none
    | some (kw, tail) => if tail = [')'] then some (String.mk kw) else none

/-- Plain single-part message with a well-formed sender. -/
def mPlain : RawMessage :=
  ⟨some "Alice <alice@example.com>", some "Hello",
   some "Mon, 1 Jan 2024 00:00:00 +0000",
   MailPart.leaf "text/plain" (some "Hi there")⟩

/-- Message with no `From` header. -/
def mNoFrom : RawMessage :=
  ⟨none, some "Hello", some "Mon, 1 Jan 2024 00:00:00 +0000",
   MailPart.leaf "text/plain" (some "Hi there")⟩

/-- Plain-text alternative part. -/
def leafPlain : MailPart := MailPart.leaf "text/plain" (some "hello")

/-- HTML alternative part. -/
def leafHtml : MailPart := MailPart.leaf "text/html" (some "<p>hi</p>")

/-- Sibling parts: the plain-text part first, the HTML part second. -/
def mpParts : List MailPart := [leafPlain, leafHtml]

/-- Multipart body with a plain-text and an HTML alternative. -/
def mpMsg : MailPart := MailPart.multi "multipart/alternative" mpParts

/-- Server on which every fetch fails with a non-OK status. -/
def srvFail : Server :=
  ⟨true, fun _ => some 1, fun _ _ => FetchRes.bad, fun _ _ => some ["1"], ListRes.exn⟩

/-- Server with one folder holding two fetchable messages. -/
def srvFew : Server :=
  ⟨true, fun f => if f = "INBOX" then some 2 else none,
   fun f s => if f = "INBOX" ∧ (s = "1" ∨ s = "2") then FetchRes.ok mPlain else FetchRes.bad,
   fun _ _ => none, ListRes.exn⟩

/-- Server with a single message lacking a `From` header. -/
def srvNoFrom : Server :=
  ⟨true, fun f => if f = "INBOX" then some 1 else none,
   fun f s => if f = "INBOX" ∧ s = "1" then FetchRes.ok mNoFrom else FetchRes.bad,
   fun _ _ => none, ListRes.exn⟩

/-- Message whose Date header is absent. -/
def mNoDate : RawMessage :=
  ⟨some "Alice <alice@example.com>", some "Hello", none,
   MailPart.leaf "text/plain" (some "Hi there")⟩

/-- Server whose one unread message lacks a Date header. -/
def srvNoDate : Server :=
  ⟨true, fun f => if f = "INBOX" then some 1 else none,
   fun f s => if f = "INBOX" ∧ s = "1" then FetchRes.ok mNoDate else FetchRes.bad,
   fun f _ => if f = "INBOX" then some ["1"] else none, ListRes.exn⟩

/-- Listing line whose quoted folder name contains a path separator. -/
def lineSlash : String :=
  "() " ++ dqS ++ "/" ++ dqS ++ " " ++ dqS ++ "Work/Reports" ++ dqS

/-- Server whose listing returns the slash-bearing quoted name. -/
def srvSlash : Server :=
  ⟨true, fun _ => none, fun _ _ => FetchRes.bad, fun _ _ => none,
   ListRes.ok [some lineSlash]⟩

/-- Server whose `mail.list()` raises. -/
def srvListExn : Server :=
  ⟨true, fun _ => none, fun _ _ => FetchRes.bad, fun _ _ => none, ListRes.exn⟩

/-- Server whose listing contains an undecodable entry. -/
def srvListPart : Server :=
  ⟨true, fun _ => none, fun _ _ => FetchRes.bad, fun _ _ => none,
   ListRes.ok [some lineSlash, none]⟩

theorem dataAppend (s t : String) : (s ++ t).data = s.data ++ t.data := rfl

theorem filterMap_eq_map_of_forall {α β : Type} (l : List α) (f : α → Option β) (g : α → β)
    (h : ∀ x ∈ l, f x = some (g x)) : l.filterMap f = l.map g := by
  induction l with
  | nil => rfl
  | cons x xs ih =>
    rw [List.filterMap_cons, h x (by simp), List.map_cons,
      ih (fun y hy => h y (by simp [hy]))]

theorem filterMap_eq_nil_of_forall {α β : Type} (l : List α) (f : α → Option β)
    (h : ∀ x ∈ l, f x = none) : l.filterMap f = [] := by
  induction l with
  | nil => rfl
  | cons x xs ih =>
    rw [List.filterMap_cons, h x (by simp), ih (fun y hy => h y (by simp [hy]))]

theorem okSummary_some {srv : Server} {f i : String} {m : RawMessage}
    (h : srv.fetch f i = FetchRes.ok m) : okSummary srv f i = some (summarize i m) := by
  simp [okSummary, h]

theorem okSummary_none {srv : Server} {f i : String}
    (h : (srv.fetch f i).isOk = false) : okSummary srv f i = none := by
  unfold okSummary
  cases hf : srv.fetch f i with
  | ok m => rw [hf] at h; simp [FetchRes.isOk] at h
  | bad => rfl
  | exn => rfl

theorem okSummary_id {srv : Server} {f j : String} {e : EmailSummary}
    (h : okSummary srv f j = some e) : e.id = j := by
  unfold okSummary at h
  cases hf : srv.fetch f j with
  | ok m => rw [hf] at h; cases h; rfl
  | bad => rw [hf] at h; cases h
  | exn => rw [hf] at h; cases h

theorem splitChar_ne_nil (sep : Char) (l : List Char) : splitChar sep l ≠ [] := by
  induction l with
  | nil => simp [splitChar]
  | cons c cs ih =>
    by_cases hc : c = sep
    · simp [splitChar, hc]
    · cases hs : splitChar sep cs with
      | nil => exact absurd hs ih
      | cons h t => simp [splitChar, hc, hs]

theorem splitChar_not_mem (sep : Char) (l : List Char) (h : sep ∉ l) :
    splitChar sep l = [l] := by
  induction l with
  | nil => rfl
  | cons c cs ih =>
    have hc : ¬ c = sep := fun hcs => h (hcs ▸ List.mem_cons_self c cs)
    have ih' := ih (fun hm => h (List.mem_cons_of_mem c hm))
    simp [splitChar, hc, ih']

theorem splitChar_append (sep : Char) (a b : List Char) (h : sep ∉ a) :
    splitChar sep (a ++ sep :: b) = a :: splitChar sep b := by
  induction a with
  | nil => simp [splitChar]
  | cons c cs ih =>
    have hc : ¬ c = sep := fun hcs => h (hcs ▸ List.mem_cons_self c cs)
    have ih' := ih (fun hm => h (List.mem_cons_of_mem c hm))
    simp [splitChar, hc, ih']

theorem splitChar_cons (sep c : Char) (l : List Char) :
    splitChar sep (c :: l)
      = if c = sep then [] :: splitChar sep l
        else
          match splitChar sep l with
          | [] => [[c]]
          | h :: t => (c :: h) :: t := rfl

theorem splitChar_two_le (sep : Char) (x y : List Char) :
    2 ≤ (splitChar sep (x ++ sep :: y)).length := by
  induction x with
  | nil =>
    rw [List.nil_append, splitChar_cons, if_pos rfl]
    cases hy : splitChar sep y with
    | nil => exact absurd hy (splitChar_ne_nil sep y)
    | cons h t =>
      simp only [List.length_cons]
      omega
  | cons c cs ih =>
    rw [List.cons_append, splitChar_cons]
    by_cases hc : c = sep
    · rw [if_pos hc]
      cases hy : splitChar sep (cs ++ sep :: y) with
      | nil => exact absurd hy (splitChar_ne_nil sep _)
      | cons h t =>
        simp only [List.length_cons]
        omega
    · rw [if_neg hc]
      cases hs : splitChar sep (cs ++ sep :: y) with
      | nil => exact absurd hs (splitChar_ne_nil sep _)
      | cons h t =>
        rw [hs] at ih
        show 2 ≤ ((c :: h) :: t).length
        simpa using ih

theorem getLastD_irrel {α : Type} (l : List α) (hne : l ≠ []) (a b : α) :
    l.getLastD a = l.getLastD b := by
  cases l with
  | nil => exact absurd rfl hne
  | cons x xs => rfl

theorem splitChar_getLastD (sep : Char) (l b : List Char) (hb : sep ∉ b) :
    (splitChar sep (l ++ sep :: b)).getLastD [] = b := by
  induction l with
  | nil =>
    rw [List.nil_append, splitChar_cons, if_pos rfl, splitChar_not_mem sep b hb,
      List.getLastD_cons, List.getLastD_cons, List.getLastD_nil]
  | cons c cs ih =>
    rw [List.cons_append, splitChar_cons]
    by_cases hc : c = sep
    · rw [if_pos hc, List.getLastD_cons]
      exact ih
    · cases hs : splitChar sep (cs ++ sep :: b) with
      | nil => exact absurd hs (splitChar_ne_nil sep _)
      | cons h t =>
        rw [if_neg hc]
        show ((c :: h) :: t).getLastD [] = b
        rw [hs] at ih
        have hlen := splitChar_two_le sep cs b
        rw [hs] at hlen
        have ht : t ≠ [] := by
          intro h0
          rw [h0] at hlen
          simp at hlen
        rw [List.getLastD_cons] at ih ⊢
        rw [getLastD_irrel t ht (c :: h) h]
        exact ih

theorem chopLead_append (p rest : List Char) : chopLead p (p ++ rest) = some rest := by
  induction p with
  | nil => rfl
  | cons c cs ih => simp [chopLead, ih]

theorem quotedTerm_no_quote (a b : List Char) (h : dq ∉ a) :
    quotedTerm (a ++ dq :: b) = some (a, b) := by
  induction a with
  | nil => simp [quotedTerm]
  | cons c cs ih =>
    have hc : ¬ c = dq := fun hcs => h (hcs ▸ List.mem_cons_self c cs)
    have ih' := ih (fun hm => h (List.mem_cons_of_mem c hm))
    simp [quotedTerm, hc, ih']

theorem quotedTerm_with_quote (a : List Char) (h : dq ∈ a) (b : List Char) :
    ∃ pre post, quotedTerm (a ++ b) = some (pre, post ++ b) := by
  induction a with
  | nil => simp at h
  | cons c cs ih =>
    by_cases hc : c = dq
    · exact ⟨[], cs, by simp [quotedTerm, hc]⟩
    · have hm : dq ∈ cs := by
        rcases List.mem_cons.mp h with h1 | h1
        · exact absurd h1.symm hc
        · exact h1
      obtain ⟨pre, post, hq⟩ := ih hm
      exact ⟨c :: pre, post, by simp [quotedTerm, hc, hq]⟩

theorem plainPayload_none (p : MailPart) (h : ¬ p.contentType = "text/plain") :
    plainPayload p = none := by
  cases p with
  | leaf ct pl =>
    simp only [MailPart.contentType] at h
    simp [plainPayload, h]
  | multi ct cs => rfl

theorem findSome_plain (l : List MailPart)
    (h : ∀ p ∈ l, p.contentType = "text/plain" → (plainPayload p).isSome = true) :
    l.findSome? plainPayload
      = (l.find? (fun q => q.contentType == "text/plain")).bind plainPayload := by
  induction l with
  | nil => rfl
  | cons q t ih =>
    by_cases hq : q.contentType = "text/plain"
    · have hs := h q (by simp) hq
      obtain ⟨s, hs'⟩ := Option.isSome_iff_exists.mp hs
      simp [List.findSome?_cons, List.find?_cons, hq, hs']
    · have hn := plainPayload_none q hq
      have ih' := ih (fun p hp => h p (by simp [hp]))
      simp [List.findSome?_cons, List.find?_cons, hq, hn, ih']

/-- C1: error-handling asymmetry.  `read_email` yields the not-found
outcome exactly when the select fails or the single fetch fails, while
each batch operation is the skip-on-failure `filterMap` of the shared loop
body over its candidate identifiers, so per-message failures are silently
omitted and the batch still returns the successfully parsed summaries. -/
theorem spec_C1 (srv : Server) (f i kw : String) (c : Nat) :
    (read_email srv i f = none ↔ srv.select f = none ∨ (srv.fetch f i).isOk = false)
  ∧ (∀ ids, (srv.select f).isSome = true →
       srv.searchResp f (searchCriterion kw) = some ids →
       search_emails srv kw f = (lastTen ids).filterMap (fun j => okSummary srv f j))
  ∧ (∀ ids, (srv.select f).isSome = true →
       srv.searchResp f "(UNSEEN)" = some ids →
       get_unread_emails srv f = (lastTen ids).filterMap (fun j => okSummary srv f j))
  ∧ (∀ n, srv.select f = some n →
       get_recent_emails srv c f
         = (recentIdx n c).filterMap (fun j => okSummary srv f (toString j))) := by
  refine ⟨?_, ?_, ?_, ?_⟩
  · cases hsel : srv.select f with
    | none => simp [read_email, hsel]
    | some n =>
      cases hf : srv.fetch f i with
      | ok m => simp [read_email, hsel, hf, FetchRes.isOk]
      | bad => simp [read_email, hsel, hf, FetchRes.isOk]
      | exn => simp [read_email, hsel, hf, FetchRes.isOk]
  · intro ids hsel hsearch
    obtain ⟨n, hn⟩ := Option.isSome_iff_exists.mp hsel
    simp [search_emails, hn, hsearch]
  · intro ids hsel hsearch
    obtain ⟨n, hn⟩ := Option.isSome_iff_exists.mp hsel
    by_cases hids : ids.isEmpty
    · have h0 : ids = [] := List.isEmpty_iff.mp hids
      subst h0
      simp [get_unread_emails, hn, hsearch, lastTen]
    · simp [get_unread_emails, hn, hsearch, hids]
  · intro n hn
    simp [get_recent_emails, hn]

/-- Witness for C1 at a concrete server whose fetch fails: the single read
reports not-found while the batch search returns an (empty) result list. -/
theorem spec_C1_witness :
    read_email srvFail "1" "INBOX" = none
  ∧ search_emails srvFail "a" "INBOX" = [] := by
  constructor
  · exact (spec_C1 srvFail "INBOX" "1" "a" 0).1.mpr (Or.inr rfl)
  · rw [(spec_C1 srvFail "INBOX" "1" "a" 0).2.1 ["1"] rfl rfl]
    rfl

/-- C2 counterexample: invoking `search` with the keyword missing opens the
session (connect succeeds, the command dispatch is reached) and then exits
via `sys.exit(1)` without ever calling `mail.logout()`. -/
theorem spec_C2_cex :
    (mainRun srvFail ["feishu_mail.py", "search"]).sessionOpened = true
  ∧ (mainRun srvFail ["feishu_mail.py", "search"]).logoutCount = 0 := ⟨rfl, rfl⟩

/-- C2 as amended: for every successfully opened session, logout is called
exactly once, except on the argument shapes that terminate between connect
and logout, where it is never called: `search`/`read` with a missing
argument (`sys.exit(1)`), `recent` with a count `int()` cannot parse
(uncaught `ValueError`), and a `recent`/`search`/`unread` run whose printed
summary list contains a message with no Date header (`print_emails_table`
raises an uncaught `TypeError` on the comma test). -/
theorem spec_C2_amended (srv : Server) (argv : List String)
    (h : (mainRun srv argv).sessionOpened = true) :
    ((mainRun srv argv).logoutCount = 0 ↔ skipsLogout srv argv)
  ∧ ((mainRun srv argv).logoutCount = 1 ↔ ¬ skipsLogout srv argv)
  ∧ (mainRun srv argv).logoutCount ≤ 1 := by
  have hmain : ((mainRun srv argv).logoutCount = 0 ∧ skipsLogout srv argv)
      ∨ ((mainRun srv argv).logoutCount = 1 ∧ ¬ skipsLogout srv argv) := by
    unfold mainRun at h ⊢
    by_cases h1 : argv.length < 2
    · rw [if_pos h1] at h
      simp at h
    rw [if_neg h1] at h ⊢
    by_cases h2 : srv.connectOk = false
    · rw [if_pos h2] at h
      simp at h
    rw [if_neg h2] at h ⊢
    clear h
    by_cases hrec : argv.getD 1 "" = "recent"
    · rw [if_pos hrec]
      cases hc : recentCount? argv with
      | none =>
        exact Or.inl ⟨rfl, Or.inr (Or.inr (Or.inl ⟨hrec, hc⟩))⟩
      | some c =>
        dsimp only
        by_cases hcr : dateCrash (get_recent_emails srv c.toNat "INBOX") = true
        · rw [if_pos hcr]
          exact Or.inl ⟨rfl, Or.inr (Or.inr (Or.inr (Or.inl ⟨hrec, c, hc, hcr⟩)))⟩
        · rw [if_neg hcr]
          refine Or.inr ⟨rfl, ?_⟩
          intro hsk
          rcases hsk with ⟨hs, _⟩ | ⟨hs, _⟩ | ⟨_, hnone⟩ | ⟨_, c', hc', hcr'⟩
            | ⟨hs, _, _⟩ | ⟨hs, _⟩
          · rw [hrec] at hs; exact absurd hs (by decide)
          · rw [hrec] at hs; exact absurd hs (by decide)
          · rw [hc] at hnone; exact Option.noConfusion hnone
          · rw [hc] at hc'
            rw [(Option.some.inj hc').symm] at hcr'
            exact hcr hcr'
          · rw [hrec] at hs; exact absurd hs (by decide)
          · rw [hrec] at hs; exact absurd hs (by decide)
    rw [if_neg hrec]
    by_cases hsea : argv.getD 1 "" = "search"
    · rw [if_pos hsea]
      by_cases h3 : argv.length < 3
      · rw [if_pos h3]
        exact Or.inl ⟨rfl, Or.inl ⟨hsea, h3⟩⟩
      · rw [if_neg h3]
        by_cases hcr : dateCrash (search_emails srv (argv.getD 2 "") "INBOX") = true
        · rw [if_pos hcr]
          exact Or.inl ⟨rfl, Or.inr (Or.inr (Or.inr (Or.inr (Or.inl ⟨hsea, h3, hcr⟩))))⟩
        · rw [if_neg hcr]
          refine Or.inr ⟨rfl, ?_⟩
          intro hsk
          rcases hsk with ⟨_, hl⟩ | ⟨hs, _⟩ | ⟨hs, _⟩ | ⟨hs, _⟩ | ⟨_, _, hcr'⟩ | ⟨hs, _⟩
          · exact h3 hl
          · rw [hsea] at hs; exact absurd hs (by decide)
          · rw [hsea] at hs; exact absurd hs (by decide)
          · rw [hsea] at hs; exact absurd hs (by decide)
          · exact hcr hcr'
          · rw [hsea] at hs; exact absurd hs (by decide)
    rw [if_neg hsea]
    by_cases hunr : argv.getD 1 "" = "unread"
    · rw [if_pos hunr]
      by_cases hcr : dateCrash (get_unread_emails srv "INBOX") = true
      · rw [if_pos hcr]
        exact Or.inl ⟨rfl, Or.inr (Or.inr (Or.inr (Or.inr (Or.inr ⟨hunr, hcr⟩))))⟩
      · rw [if_neg hcr]
        refine Or.inr ⟨rfl, ?_⟩
        intro hsk
        rcases hsk with ⟨hs, _⟩ | ⟨hs, _⟩ | ⟨hs, _⟩ | ⟨hs, _⟩ | ⟨hs, _, _⟩ | ⟨_, hcr'⟩
        · rw [hunr] at hs; exact absurd hs (by decide)
        · rw [hunr] at hs; exact absurd hs (by decide)
        · rw [hunr] at hs; exact absurd hs (by decide)
        · rw [hunr] at hs; exact absurd hs (by decide)
        · rw [hunr] at hs; exact absurd hs (by decide)
        · exact hcr hcr'
    rw [if_neg hunr]
    have hno : argv.getD 1 "" ≠ "search" → argv.getD 1 "" ≠ "read" →
        argv.getD 1 "" ≠ "recent" → argv.getD 1 "" ≠ "unread" →
        ¬ skipsLogout srv argv := by
      intro hA hB hC hD hsk
      rcases hsk with ⟨hs, _⟩ | ⟨hs, _⟩ | ⟨hs, _⟩ | ⟨hs, _⟩ | ⟨hs, _, _⟩ | ⟨hs, _⟩
      · exact hA hs
      · exact hB hs
      · exact hC hs
      · exact hC hs
      · exact hA hs
      · exact hD hs
    by_cases hfol : argv.getD 1 "" = "folders"
    · rw [if_pos hfol]
      exact Or.inr ⟨rfl, hno (by rw [hfol]; decide) (by rw [hfol]; decide)
        (by rw [hfol]; decide) (by rw [hfol]; decide)⟩
    rw [if_neg hfol]
    by_cases hrd : argv.getD 1 "" = "read"
    · rw [if_pos hrd]
      by_cases h3 : argv.length < 3
      · rw [if_pos h3]
        exact Or.inl ⟨rfl, Or.inr (Or.inl ⟨hrd, h3⟩)⟩
      · rw [if_neg h3]
        refine Or.inr ⟨rfl, ?_⟩
        intro hsk
        rcases hsk with ⟨hs, _⟩ | ⟨_, hl⟩ | ⟨hs, _⟩ | ⟨hs, _⟩ | ⟨hs, _, _⟩ | ⟨hs, _⟩
        · rw [hrd] at hs; exact absurd hs (by decide)
        · exact h3 hl
        · rw [hrd] at hs; exact absurd hs (by decide)
        · rw [hrd] at hs; exact absurd hs (by decide)
        · rw [hrd] at hs; exact absurd hs (by decide)
        · rw [hrd] at hs; exact absurd hs (by decide)
    · rw [if_neg hrd]
      exact Or.inr ⟨rfl, hno hsea hrd hrec hunr⟩
  rcases hmain with ⟨h0, hs⟩ | ⟨hone, hns⟩
  · refine ⟨⟨fun _ => hs, fun _ => h0⟩, ?_, ?_⟩
    · constructor
      · intro hone'
        rw [h0] at hone'
        exact absurd hone' (by decide)
      · intro hns'
        exact absurd hs hns'
    · rw [h0]
      exact Nat.zero_le 1
  · refine ⟨?_, ⟨fun _ => hns, fun _ => hone⟩, ?_⟩
    · constructor
      · intro h0'
        rw [hone] at h0'
        exact absurd h0' (by decide)
      · intro hs'
        exact absurd hs' hns
    · rw [hone]

/-- Witness for the amended C2: a completed `unread` invocation (all dates
present) logs out exactly once, while an `unread` invocation listing a
Date-less message dies in `print_emails_table` with the session open. -/
theorem spec_C2_witness :
    (mainRun srvFail ["feishu_mail.py", "unread"]).logoutCount = 1
  ∧ (mainRun srvNoDate ["feishu_mail.py", "unread"]).logoutCount = 0 := by
  constructor
  · refine ((spec_C2_amended srvFail ["feishu_mail.py", "unread"] rfl).2.1).mpr ?_
    intro hsk
    rcases hsk with ⟨hs, _⟩ | ⟨hs, _⟩ | ⟨hs, _⟩ | ⟨hs, _⟩ | ⟨hs, _, _⟩ | ⟨_, hcr⟩
    · exact absurd hs (by decide)
    · exact absurd hs (by decide)
    · exact absurd hs (by decide)
    · exact absurd hs (by decide)
    · exact absurd hs (by decide)
    · exact absurd hcr (by decide)
  · exact ((spec_C2_amended srvNoDate ["feishu_mail.py", "unread"] rfl).1).mpr
      (Or.inr (Or.inr (Or.inr (Or.inr (Or.inr ⟨rfl, by decide⟩)))))

/-- C3 counterexample: a standard listing line whose quoted, unmapped
folder name contains a path separator is returned verbatim, not reduced to
its final path segment as the claim states. -/
theorem spec_C3_cex :
    get_folder_list srvSlash = ["Work/Reports"]
  ∧ ("Work/Reports" : String) ≠ "Reports" := ⟨rfl, by decide⟩

/-- C3 as amended: on a listing line with at least three quote-delimited
pieces the resolver takes the piece between the final pair of quotes
through the static mapping, unmapped pieces passing through verbatim (even
when they contain path separators); only a line with fewer than three
pieces is reduced to its final slash-separated segment, trimmed and
quote-stripped. -/
theorem spec_C3_amended :
    (∀ pre mid tok : String, dq ∉ pre.data → dq ∉ mid.data → dq ∉ tok.data →
       parseFolderLine (pre ++ dqS ++ mid ++ dqS ++ " " ++ dqS ++ tok ++ dqS)
         = (folderMapGet tok).getD tok)
  ∧ (∀ a b : String, dq ∉ a.data → dq ∉ b.data → '/' ∉ b.data →
       parseFolderLine (a ++ "/" ++ b) = stripQuotes (b.trim)) := by
  constructor
  · intro pre mid tok hp hm ht
    have hdata : (pre ++ dqS ++ mid ++ dqS ++ " " ++ dqS ++ tok ++ dqS).data
        = pre.data ++ dq :: (mid.data ++ dq :: (' ' :: dq :: (tok.data ++ dq :: []))) := by
      simp [dataAppend, dqS]
    have htok : splitChar dq (tok.data ++ dq :: []) = tok.data :: [[]] := by
      rw [splitChar_append dq tok.data [] ht]
      rfl
    have hmidtail : splitChar dq (' ' :: dq :: (tok.data ++ dq :: []))
        = [' '] :: tok.data :: [[]] := by
      have hsp : ¬ (' ' = dq) := by decide
      rw [splitChar_cons, if_neg hsp, splitChar_cons, if_pos rfl, htok]
    have hsplit : splitChar dq (pre ++ dqS ++ mid ++ dqS ++ " " ++ dqS ++ tok ++ dqS).data
        = [pre.data, mid.data, [' '], tok.data, []] := by
      rw [hdata, splitChar_append dq pre.data _ hp, splitChar_append dq mid.data _ hm,
        hmidtail]
    have heta : String.mk tok.data = tok := rfl
    simp only [parseFolderLine, hsplit]
    norm_num [List.getD, heta]
  · intro a b ha hb hsb
    have hdata : (a ++ "/" ++ b).data = a.data ++ '/' :: b.data := by
      simp [dataAppend]
    have hnq : dq ∉ (a ++ "/" ++ b).data := by
      rw [hdata]
      intro hmem
      rcases List.mem_append.mp hmem with h1 | h1
      · exact ha h1
      · rcases List.mem_cons.mp h1 with h2 | h2
        · exact absurd h2 (by decide)
        · exact hb h2
    have hone : splitChar dq (a ++ "/" ++ b).data = [(a ++ "/" ++ b).data] :=
      splitChar_not_mem dq _ hnq
    have hlast : (splitChar '/' (a ++ "/" ++ b).data).getLastD [] = b.data := by
      rw [hdata]
      exact splitChar_getLastD '/' a.data b.data hsb
    have heta : String.mk b.data = b := rfl
    simp only [parseFolderLine, hone, hlast, heta]
    norm_num

/-- Witness for the amended C3: a mapped token on a standard listing line
resolves to its canonical display name. -/
theorem spec_C3_witness :
    parseFolderLine ("() " ++ dqS ++ "/" ++ dqS ++ " " ++ dqS ++ "&XfJfUmhj-" ++ dqS)
      = "Archive" := by
  rw [spec_C3_amended.1 "() " "/" "&XfJfUmhj-" (by decide) (by decide) (by decide)]
  rfl

/-- C4: search and unread return at most ten summaries, and every returned
summary's identifier comes from the last ten entries of the ascending match
list. -/
theorem spec_C4 (srv : Server) (kw f : String) :
    (search_emails srv kw f).length ≤ 10
  ∧ (get_unread_emails srv f).length ≤ 10
  ∧ (∀ ids, srv.searchResp f (searchCriterion kw) = some ids →
       ∀ e ∈ search_emails srv kw f, e.id ∈ lastTen ids)
  ∧ (∀ ids, srv.searchResp f "(UNSEEN)" = some ids →
       ∀ e ∈ get_unread_emails srv f, e.id ∈ lastTen ids) := by
  have hlen : ∀ ids : List String,
      ((lastTen ids).filterMap (fun j => okSummary srv f j)).length ≤ 10 := by
    intro ids
    calc ((lastTen ids).filterMap (fun j => okSummary srv f j)).length
        ≤ (lastTen ids).length := List.length_filterMap_le _ _
      _ ≤ 10 := by
        simp only [lastTen, List.length_drop]
        omega
  have hid : ∀ ids : List String,
      ∀ e ∈ (lastTen ids).filterMap (fun j => okSummary srv f j), e.id ∈ lastTen ids := by
    intro ids e he
    obtain ⟨j, hj, hje⟩ := List.mem_filterMap.mp he
    rw [okSummary_id hje]
    exact hj
  refine ⟨?_, ?_, ?_, ?_⟩
  · cases hsel : srv.select f with
    | none => simp [search_emails, hsel]
    | some n =>
      cases hq : srv.searchResp f (searchCriterion kw) with
      | none => simp [search_emails, hsel, hq]
      | some ids =>
        simp only [search_emails, hsel, hq]
        exact hlen ids
  · cases hsel : srv.select f with
    | none => simp [get_unread_emails, hsel]
    | some n =>
      cases hq : srv.searchResp f "(UNSEEN)" with
      | none => simp [get_unread_emails, hsel, hq]
      | some ids =>
        by_cases hids : ids.isEmpty
        · simp [get_unread_emails, hsel, hq, hids]
        · simp only [get_unread_emails, hsel, hq]
          rw [if_neg hids]
          exact hlen ids
  · intro ids hq e he
    cases hsel : srv.select f with
    | none => simp [search_emails, hsel] at he
    | some n =>
      simp only [search_emails, hsel, hq] at he
      exact hid ids e he
  · intro ids hq e he
    cases hsel : srv.select f with
    | none => simp [get_unread_emails, hsel] at he
    | some n =>
      by_cases hids : ids.isEmpty
      · simp [get_unread_emails, hsel, hq, hids] at he
      · simp only [get_unread_emails, hsel, hq] at he
        rw [if_neg hids] at he
        exact hid ids e he

/-- Witness for C4 at a concrete server. -/
theorem spec_C4_witness : (search_emails srvFail "a" "INBOX").length ≤ 10 :=
  (spec_C4 srvFail "a" "INBOX").1

/-- C5: on a folder holding fewer messages than the requested count, and
with every existing identifier fetchable while non-positive identifiers
fail, `get_recent_emails` returns exactly one summary per existing message,
in descending sequence-number order, without failing. -/
theorem spec_C5 (srv : Server) (f : String) (n count : Nat) (msgs : Int → RawMessage)
    (hsel : srv.select f = some n) (hlt : n < count)
    (hok : ∀ i ∈ recentIdx n count, 1 ≤ i → srv.fetch f (toString i) = FetchRes.ok (msgs i))
    (hbad : ∀ i ∈ recentIdx n count, i ≤ 0 → (srv.fetch f (toString i)).isOk = false) :
    get_recent_emails srv count f
      = (List.range n).map
          (fun k : Nat => summarize (toString ((n : Int) - (k : Int))) (msgs ((n : Int) - (k : Int))))
    ∧ (get_recent_emails srv count f).length = n := by
  have hcount : count = n + (count - n) := by omega
  have hsplitIdx : recentIdx n count
      = (List.range n).map (fun k : Nat => (n : Int) - (k : Int))
        ++ (List.range (count - n)).map
            ((fun k : Nat => (n : Int) - (k : Int)) ∘ (fun x : Nat => n + x)) := by
    unfold recentIdx
    conv_lhs => rw [hcount]
    rw [List.range_add, List.map_append, List.map_map]
  have heq : get_recent_emails srv count f
      = (List.range n).map
          (fun k : Nat => summarize (toString ((n : Int) - (k : Int))) (msgs ((n : Int) - (k : Int)))) := by
    simp only [get_recent_emails, hsel]
    rw [hsplitIdx, List.filterMap_append]
    have hA : ((List.range n).map (fun k : Nat => (n : Int) - (k : Int))).filterMap
          (fun i => okSummary srv f (toString i))
        = ((List.range n).map (fun k : Nat => (n : Int) - (k : Int))).map
          (fun i => summarize (toString i) (msgs i)) := by
      apply filterMap_eq_map_of_forall
      intro i hi
      have hmem : i ∈ recentIdx n count := by
        rw [hsplitIdx]
        exact List.mem_append_left _ hi
      obtain ⟨k, hk, rfl⟩ := List.mem_map.mp hi
      have hk' : k < n := List.mem_range.mp hk
      have h1 : (1 : Int) ≤ (n : Int) - (k : Int) := by omega
      exact okSummary_some (hok _ hmem h1)
    have hB : ((List.range (count - n)).map
          ((fun k : Nat => (n : Int) - (k : Int)) ∘ (fun x : Nat => n + x))).filterMap
          (fun i => okSummary srv f (toString i)) = [] := by
      apply filterMap_eq_nil_of_forall
      intro i hi
      have hmem : i ∈ recentIdx n count := by
        rw [hsplitIdx]
        exact List.mem_append_right _ hi
      obtain ⟨k, hk, rfl⟩ := List.mem_map.mp hi
      have h0 : ((fun k : Nat => (n : Int) - (k : Int)) ∘ (fun x : Nat => n + x)) k ≤ 0 := by
        simp only [Function.comp]
        push_cast
        omega
      exact okSummary_none (hbad _ hmem h0)
    rw [hA, hB, List.append_nil, List.map_map]
    rfl
  constructor
  · exact heq
  · rw [heq]
    simp

/-- Witness for C5: a folder with two messages and a requested count of
five yields exactly two summaries. -/
theorem spec_C5_witness : (get_recent_emails srvFew 5 "INBOX").length = 2 :=
  (spec_C5 srvFew "INBOX" 2 5 (fun _ => mPlain) rfl (by omega)
    (by
      intro i hi h1
      rw [show recentIdx 2 5 = [2, 1, 0, -1, -2] from rfl] at hi
      fin_cases hi
      · rfl
      · rfl
      · exact absurd h1 (by decide)
      · exact absurd h1 (by decide)
      · exact absurd h1 (by decide))
    (by
      intro i hi h0
      rw [show recentIdx 2 5 = [2, 1, 0, -1, -2] from rfl] at hi
      fin_cases hi
      · exact absurd h0 (by decide)
      · exact absurd h0 (by decide)
      · rfl
      · rfl
      · rfl)).2

/-- C6: for a multipart message all of whose plain-text parts decode, the
parsed body is the decoded payload of the first part of the depth-first
walk whose content type is plain text (any HTML part is thereby ignored),
and the empty string when no plain-text part exists. -/
theorem spec_C6 (ct0 : String) (cs : List MailPart)
    (hdec : ∀ p ∈ (MailPart.multi ct0 cs).walk,
      p.contentType = "text/plain" → (plainPayload p).isSome = true) :
    (∀ p, (MailPart.multi ct0 cs).walk.find? (fun q => q.contentType == "text/plain") = some p →
       ∃ s, plainPayload p = some s ∧ parseBody (MailPart.multi ct0 cs) = s)
  ∧ ((MailPart.multi ct0 cs).walk.find? (fun q => q.contentType == "text/plain") = none →
       parseBody (MailPart.multi ct0 cs) = "") := by
  have hbody : parseBody (MailPart.multi ct0 cs)
      = (((MailPart.multi ct0 cs).walk).findSome? plainPayload).getD "" := rfl
  constructor
  · intro p hp
    have hmem := List.mem_of_find?_eq_some hp
    have hpred := List.find?_some hp
    have hct : p.contentType = "text/plain" := by
      simpa using hpred
    obtain ⟨s, hs⟩ := Option.isSome_iff_exists.mp (hdec p hmem hct)
    refine ⟨s, hs, ?_⟩
    rw [hbody, findSome_plain _ hdec, hp]
    simp [hs]
  · intro hnone
    rw [hbody, findSome_plain _ hdec, hnone]
    rfl

/-- Witness for C6: the multipart body with a plain and an HTML alternative
parses to the plain part's content. -/
theorem spec_C6_witness : parseBody mpMsg = "hello" := by
  have hwalk : (MailPart.multi "multipart/alternative" mpParts).walk
      = [MailPart.multi "multipart/alternative" mpParts, leafPlain, leafHtml] := by
    simp [MailPart.walk, walkChildren, mpParts, leafPlain, leafHtml]
  have hfind : (MailPart.multi "multipart/alternative" mpParts).walk.find?
      (fun q => q.contentType == "text/plain") = some leafPlain := by
    rw [hwalk]
    rfl
  have hdec : ∀ p ∈ (MailPart.multi "multipart/alternative" mpParts).walk,
      p.contentType = "text/plain" → (plainPayload p).isSome = true := by
    rw [hwalk]
    decide
  obtain ⟨s, hs, hb⟩ := (spec_C6 "multipart/alternative" mpParts hdec).1 leafPlain hfind
  have hs' : s = "hello" := by
    simp only [leafPlain, plainPayload, if_pos rfl] at hs
    exact (Option.some.inj hs).symm
  rw [hs'] at hb
  exact hb

/-- C7: a message with no `From` header parses to empty sender name and
address in the batch envelope parser and in `read_email`, with no
failure. -/
theorem spec_C7 (srv : Server) (f i : String) (m : RawMessage)
    (hsel : (srv.select f).isSome = true) (hfetch : srv.fetch f i = FetchRes.ok m)
    (hfrom : m.fromHeader = none) :
    (summarize i m).from_name = "" ∧ (summarize i m).from_addr = ""
  ∧ read_email srv i f = some (parseDetail m)
  ∧ (parseDetail m).from_name = "" ∧ (parseDetail m).from_addr = "" := by
  obtain ⟨n, hn⟩ := Option.isSome_iff_exists.mp hsel
  refine ⟨?_, ?_, ?_, ?_, ?_⟩
  · simp [summarize, hfrom]
  · simp [summarize, hfrom]
  · simp [read_email, hn, hfetch]
  · simp [parseDetail, hfrom, parseaddr]
  · simp [parseDetail, hfrom, parseaddr]

/-- Witness for C7 on a concrete server holding a `From`-less message. -/
theorem spec_C7_witness :
    (summarize "1" mNoFrom).from_name = "" ∧ (summarize "1" mNoFrom).from_addr = ""
  ∧ read_email srvNoFrom "1" "INBOX" = some (parseDetail mNoFrom)
  ∧ (parseDetail mNoFrom).from_name = "" ∧ (parseDetail mNoFrom).from_addr = "" :=
  spec_C7 srvNoFrom "INBOX" "1" mNoFrom rfl rfl rfl

/-- C8 counterexample: a raising `mail.list()` (a total listing failure) is
caught by `get_folder_list` and converted into the successful empty result;
nothing propagates to the caller, contrary to the claim. -/
theorem spec_C8_cex :
    srvListExn.listResp = ListRes.exn ∧ get_folder_list srvListExn = [] := ⟨rfl, rfl⟩

/-- C8 as amended: every failure of the underlying list call, total (the
call raising) or partial (an undecodable entry mid-iteration), is caught
and yields the empty sequence; a fully decodable listing is resolved
line by line. -/
theorem spec_C8_amended (srv : Server) :
    (srv.listResp = ListRes.exn → get_folder_list srv = [])
  ∧ (∀ lines, srv.listResp = ListRes.ok lines →
       lines.all (fun o => o.isSome) = false → get_folder_list srv = [])
  ∧ (∀ lines, srv.listResp = ListRes.ok lines →
       lines.all (fun o => o.isSome) = true →
       get_folder_list srv = (lines.filterMap (fun o => o)).map parseFolderLine) := by
  refine ⟨?_, ?_, ?_⟩
  · intro h
    simp [get_folder_list, h]
  · intro lines h hall
    simp [get_folder_list, h, hall]
  · intro lines h hall
    simp [get_folder_list, h, hall]

/-- Witness for the amended C8: a listing with one undecodable entry yields
the empty sequence. -/
theorem spec_C8_witness : get_folder_list srvListPart = [] :=
  (spec_C8_amended srvListPart).2.1 [some lineSlash, none] rfl rfl

/-- C9: every successful `read_email` result carries a body of at most 2000
characters, the truncation being applied when the detail record is
built. -/
theorem spec_C9 (srv : Server) (i f : String) (d : EmailDetail)
    (h : read_email srv i f = some d) : d.body.length ≤ 2000 := by
  unfold read_email at h
  cases hsel : srv.select f with
  | none =>
    rw [hsel] at h
    exact absurd h (by simp)
  | some n =>
    rw [hsel] at h
    cases hf : srv.fetch f i with
    | ok m =>
      rw [hf] at h
      have hd : d = parseDetail m := (Option.some.inj h).symm
      rw [hd]
      show (strTake (parseBody m.content) 2000).length ≤ 2000
      have hlen : (strTake (parseBody m.content) 2000).length
          = ((parseBody m.content).data.take 2000).length := rfl
      rw [hlen, List.length_take]
      exact Nat.min_le_left _ _
    | bad =>
      rw [hf] at h
      exact absurd h (by simp)
    | exn =>
      rw [hf] at h
      exact absurd h (by simp)

/-- Witness for C9 at a concrete successful read. -/
theorem spec_C9_witness : (parseDetail mNoFrom).body.length ≤ 2000 :=
  spec_C9 srvNoFrom "1" "INBOX" (parseDetail mNoFrom) rfl

/-- C10: the search criterion is the literal interpolation of the keyword
between the fixed delimiters with no escaping, so a protocol reader
recovers the keyword exactly when it is quote-free, and a keyword
containing a double quote changes the structure of the criterion (the
reader no longer parses it as the intended subject term). -/
theorem spec_C10 (kw : String) :
    searchCriterion kw = "(SUBJECT " ++ dqS ++ kw ++ dqS ++ ")"
  ∧ (dq ∉ kw.data → criterionSubject (searchCriterion kw) = some kw)
  ∧ (dq ∈ kw.data → criterionSubject (searchCriterion kw) = none) := by
  have hdata : (searchCriterion kw).data
      = ("(SUBJECT ".data ++ [dq]) ++ (kw.data ++ dq :: [')']) := by
    simp [searchCriterion, dataAppend, dqS]
  refine ⟨rfl, ?_, ?_⟩
  · intro hnq
    simp only [criterionSubject, hdata, chopLead_append, quotedTerm_no_quote kw.data [')'] hnq,
      if_pos rfl]
    rfl
  · intro hq
    obtain ⟨pre, post, hqt⟩ := quotedTerm_with_quote kw.data hq (dq :: [')'])
    have hne : post ++ dq :: [')'] ≠ [')'] := by
      intro hEq
      have := congrArg List.length hEq
      simp at this
    have hrw : kw.data ++ dq :: [')'] = kw.data ++ (dq :: [')']) := rfl
    simp only [criterionSubject, hdata, chopLead_append, hrw, hqt, if_neg hne]

/-- Witness for C10: the round trip succeeds on a quote-free keyword and
fails on a keyword carrying an embedded quote. -/
theorem spec_C10_witness :
    criterionSubject (searchCriterion "invoice") = some "invoice"
  ∧ criterionSubject (searchCriterion ("in" ++ dqS ++ "voice")) = none := by
  constructor
  · exact (spec_C10 "invoice").2.1 (by decide)
  · exact (spec_C10 ("in" ++ dqS ++ "voice")).2.2 (by
      show dq ∈ ("in" ++ dqS ++ "voice").data
      simp [dataAppend, dqS])
